import Mathlib

/-
Verification of the connection-pool core of the Smart-Habit-Tracker
repository.

The embedding below follows `src/models/db.js` (the connection pool:
`initializeConnectionPool`, `createConnection`, `getConnection`,
`releaseConnection`, `manageIdleConnections`, `withConnection`,
`closeAllConnections`) and the transaction helper of
`src/utils/dbUtils.js`.

Modelling decisions:
- Physical SQLite handles are opaque to the pool; they are modelled as
  numeric identifiers handed out by a counter (`nextConn`), so `===`
  identity on handles becomes equality of numbers.
- `Date.now()` is passed in explicitly as a `now : Nat` argument at each
  call that reads the clock.
- `createConnection` can fail (it throws `DatabaseError`); an oracle
  `ok : Nat → Bool` says whether the attempt to create the connection
  with the next identifier succeeds.
- `setInterval` / `clearInterval` are modelled by an `Option Nat` timer
  slot (`idleConnectionTimer`) plus a list of currently live timers and
  a timer-id counter; one tick of the interval callback is the explicit
  `reaperTick` function.
- Closing a physical handle is recorded by appending its identifier to
  the `closed` trace; `closeOk` oracles model `close()` failures.
- Thrown JS errors are `JsError` values carried in `Except`.
-/

set_option autoImplicit false
set_option maxHeartbeats 1000000

namespace HabitPool

/-- One entry of `connectionPool` in db.js: the object
`{ connection, inUse, lastUsed }` pushed for base connections (the
absent `isExtra` key reads as falsy, modelled `isExtra = false`) or
`{ connection, inUse, lastUsed, isExtra: true }` for overflow
connections created by `getConnection`. -/
structure ConnEntry where
  connection : Nat
  inUse : Bool
  lastUsed : Nat
  isExtra : Bool
deriving Repr, DecidableEq

/-- The module-level mutable state of db.js: the `connectionPool` array,
the `poolInitialized` flag and the `idleConnectionTimer` slot, together
with bookkeeping for the model (fresh handle counter, live interval
timers, fresh timer counter, and the trace of closed handles). -/
structure PoolState where
  connectionPool : List ConnEntry
  poolInitialized : Bool
  nextConn : Nat
  idleConnectionTimer : Option Nat
  liveTimers : List Nat
  nextTimer : Nat
  closed : List Nat
deriving Repr, DecidableEq

/-- The state of the module before anything ran. -/
def freshPoolState : PoolState :=
  { connectionPool := [], poolInitialized := false, nextConn := 0,
    idleConnectionTimer := none, liveTimers := [], nextTimer := 0, closed := [] }

/-- A thrown JS error value: either a `DatabaseError` from
`src/utils/errors.js` (identified by its message) or any other thrown
value, identified by its `message`. -/
inductive JsError where
  | databaseError (message : String)
  | plain (message : String)
deriving Repr, DecidableEq

/-- `error.message` of a thrown value. -/
def JsError.message : JsError → String
  | JsError.databaseError m => m
  | JsError.plain m => m

/-- `POOL_SIZE = process.env.DB_POOL_SIZE || 5`: the default base pool
size when the environment variable is unset. -/
def defaultPoolSize : Nat := 5

/-- `IDLE_TIMEOUT = process.env.DB_IDLE_TIMEOUT || 30000`. -/
def defaultIdleTimeout : Nat := 30000

/-- `manageIdleConnections` (db.js): clears any existing interval timer
(`clearInterval(idleConnectionTimer)`) and installs a fresh one whose
ticks are modelled by `reaperTick`. -/
def manageIdleConnections (s : PoolState) : PoolState :=
  let s1 :=
    match s.idleConnectionTimer with
    | some t => { s with liveTimers := s.liveTimers.erase t }
    | none => s
  { s1 with idleConnectionTimer := some s1.nextTimer,
            liveTimers := s1.liveTimers ++ [s1.nextTimer],
            nextTimer := s1.nextTimer + 1 }

/-- The `for (let i = 0; i < POOL_SIZE; i++)` loop of
`initializeConnectionPool`: each iteration awaits `createConnection()`
(success dictated by the `ok` oracle at the fresh handle identifier) and
pushes `{ connection, inUse: false, lastUsed: now }` (no `isExtra` key,
so `isExtra = false`). Returns the state together with `true` on
completion, or stops at the first failed creation with `false` (the
thrown `DatabaseError`), leaving already-pushed entries in place. -/
def initLoop (now : Nat) (ok : Nat → Bool) : Nat → PoolState → PoolState × Bool
  | 0, s => (s, true)
  | n + 1, s =>
    if ok s.nextConn then
      initLoop now ok n
        { s with
            connectionPool := s.connectionPool ++
              [{ connection := s.nextConn, inUse := false, lastUsed := now, isExtra := false }],
            nextConn := s.nextConn + 1 }
    else (s, false)

/-- `initializeConnectionPool` (db.js): returns immediately when
`poolInitialized` is already set; otherwise creates `POOL_SIZE`
connections, and on success sets `poolInitialized = true` and starts the
idle-connection manager. The boolean is `false` exactly when the
function throws `DatabaseError("Database connection pool initialization
failed")`. -/
def initializeConnectionPool (PS now : Nat) (ok : Nat → Bool) (s : PoolState) :
    PoolState × Bool :=
  if s.poolInitialized then (s, true)
  else
    match initLoop now ok PS s with
    | (s1, true) => (manageIdleConnections { s1 with poolInitialized := true }, true)
    | (s1, false) => (s1, false)

/-- Linear scan for the first entry satisfying `p`, returned together
with its position: the prefix of entries failing `p`, the entry itself,
and the suffix. This is `Array.prototype.find` / `findIndex` keeping
hold of the surrounding context. -/
def splitFirst (p : ConnEntry → Bool) : List ConnEntry → Option (List ConnEntry × ConnEntry × List ConnEntry)
  | [] => none
  | e :: rest =>
    if p e then some ([], e, rest)
    else
      match splitFirst p rest with
      | some r => some (e :: r.1, r.2.1, r.2.2)
      | none => none

/-- `connectionPool.find((conn) => !conn.inUse)` together with the
position of the found entry: returns the prefix of in-use entries, the
first idle entry, and the remaining suffix. -/
def findFirstIdle : List ConnEntry → Option (List ConnEntry × ConnEntry × List ConnEntry) :=
  splitFirst (fun c => !c.inUse)

/-- The body of `getConnection` after the pool is known to be
initialized: hand out the first idle entry (marking it
`inUse = true, lastUsed = now`), or create an additional connection
beyond the pool size (`isExtra: true`), push it and return it; if that
creation fails, the thrown `DatabaseError` propagates. -/
def getConnectionBody (now : Nat) (ok : Nat → Bool) (s : PoolState) :
    PoolState × Except JsError Nat :=
  match findFirstIdle s.connectionPool with
  | some r =>
    ({ s with connectionPool :=
        r.1 ++ { r.2.1 with inUse := true, lastUsed := now } :: r.2.2 },
     Except.ok r.2.1.connection)
  | none =>
    if ok s.nextConn then
      ({ s with
          connectionPool := s.connectionPool ++
            [{ connection := s.nextConn, inUse := true, lastUsed := now, isExtra := true }],
          nextConn := s.nextConn + 1 },
       Except.ok s.nextConn)
    else (s, Except.error (JsError.databaseError "Failed to connect to database"))

/-- `getConnection` (db.js): initializes the pool first when
`poolInitialized` is false (propagating an initialization failure),
then runs the acquire body. -/
def getConnection (PS now : Nat) (ok : Nat → Bool) (s : PoolState) :
    PoolState × Except JsError Nat :=
  if s.poolInitialized then getConnectionBody now ok s
  else
    match initializeConnectionPool PS now ok s with
    | (s1, true) => getConnectionBody now ok s1
    | (s1, false) =>
      (s1, Except.error (JsError.databaseError "Database connection pool initialization failed"))

/-- `connectionPool.findIndex((conn) => conn.connection === connection)`
with the surrounding context: the prefix of non-matching entries, the
first entry whose handle equals `h`, and the suffix. -/
def splitAtHandle (h : Nat) : List ConnEntry → Option (List ConnEntry × ConnEntry × List ConnEntry) :=
  splitFirst (fun c => decide (c.connection = h))

/-- `connectionPool.filter((c) => !c.inUse).length`. -/
def idleCount (pool : List ConnEntry) : Nat :=
  (pool.filter (fun c => !c.inUse)).length

/-- `releaseConnection` (db.js): locate the entry by handle identity (a
no-op when absent); mark it `inUse = false`, refresh `lastUsed`; then,
if the entry is an extra connection and the pool now holds strictly more
than `POOL_SIZE` idle entries, close the handle and splice the entry
out. -/
def releaseConnection (PS now h : Nat) (s : PoolState) : PoolState :=
  match splitAtHandle h s.connectionPool with
  | none => s
  | some r =>
    let c1 := { r.2.1 with inUse := false, lastUsed := now }
    let pool1 := r.1 ++ c1 :: r.2.2
    if c1.isExtra && decide (PS < idleCount pool1) then
      { s with connectionPool := r.1 ++ r.2.2, closed := s.closed ++ [c1.connection] }
    else
      { s with connectionPool := pool1 }

/-- The condition of the reaper's filter callback:
`!conn.inUse && conn.isExtra && now - conn.lastUsed > IDLE_TIMEOUT`. -/
def isReapable (T now : Nat) (c : ConnEntry) : Bool :=
  !c.inUse && c.isExtra && decide (T < now - c.lastUsed)

/-- One tick of the interval installed by `manageIdleConnections`: every
idle extra connection past the idle timeout is closed and filtered out
of `connectionPool`; all other entries are kept. -/
def reaperTick (T now : Nat) (s : PoolState) : PoolState :=
  { s with
    closed := s.closed ++
      ((s.connectionPool.filter (fun c => isReapable T now c)).map (fun c => c.connection)),
    connectionPool := s.connectionPool.filter (fun c => !isReapable T now c) }

/-- `closeAllConnections` (db.js): clear the idle-connection timer if it
exists, attempt to close every pooled handle (an individual failure,
`closeOk = false`, is caught and logged without aborting the loop), then
empty the registry and reset `poolInitialized`. -/
def closeAllConnections (closeOk : Nat → Bool) (s : PoolState) : PoolState :=
  let s1 :=
    match s.idleConnectionTimer with
    | some t => { s with liveTimers := s.liveTimers.erase t, idleConnectionTimer := none }
    | none => s
  { s1 with
    closed := s1.closed ++
      ((s1.connectionPool.filter (fun c => closeOk c.connection)).map (fun c => c.connection)),
    connectionPool := [],
    poolInitialized := false }

/-- The world seen by code running inside `withConnection`: the pool
state plus the trace of `db.exec` statements issued so far, each tagged
with the handle it ran on. -/
structure World where
  pool : PoolState
  log : List (Nat × String)
deriving Repr, DecidableEq

/-- `db.exec(sql)` on the borrowed handle `db`, recorded in the trace. -/
def dbExec (db : Nat) (sql : String) (w : World) : World :=
  { w with log := w.log ++ [(db, sql)] }

/-- `withConnection` (db.js): acquire a connection, run the operation,
and release the connection in a `finally` block, so the release happens
on the normal path and the throwing path alike and the operation's
result or error passes through unchanged. An acquisition failure
propagates before the operation runs. -/
def withConnection {α : Type} (PS now1 now2 : Nat) (ok : Nat → Bool)
    (operation : Nat → World → World × Except JsError α) (w : World) :
    World × Except JsError α :=
  match getConnection PS now1 ok w.pool with
  | (p1, Except.error e) => ({ w with pool := p1 }, Except.error e)
  | (p1, Except.ok h) =>
    let r := operation h { w with pool := p1 }
    ({ r.1 with pool := releaseConnection PS now2 h r.1.pool }, r.2)

/-- The callback `transaction` passes to `withConnection`
(src/utils/dbUtils.js): exec `BEGIN TRANSACTION`, run the batch of
operations, exec `COMMIT` and return the batch result on success; on any
failure in the batch, exec `ROLLBACK` and throw
`DatabaseError("Transaction failed: " + error.message)`. -/
def txCallback {α : Type} (operations : Nat → World → World × Except JsError α)
    (db : Nat) (w0 : World) : World × Except JsError α :=
  match operations db (dbExec db "BEGIN TRANSACTION" w0) with
  | (w2, Except.ok result) => (dbExec db "COMMIT" w2, Except.ok result)
  | (w2, Except.error e) =>
    (dbExec db "ROLLBACK" w2,
     Except.error (JsError.databaseError ("Transaction failed: " ++ JsError.message e)))

/-- `transaction` (src/utils/dbUtils.js): run the transactional callback
through `withConnection`. -/
def transaction {α : Type} (PS now1 now2 : Nat) (ok : Nat → Bool)
    (operations : Nat → World → World × Except JsError α) (w : World) :
    World × Except JsError α :=
  withConnection PS now1 now2 ok (txCallback operations) w

/-- Well-formedness of the pool state: registry handles are pairwise
distinct and every registry handle is below the fresh-handle counter. -/
def WF (s : PoolState) : Prop :=
  (s.connectionPool.map (fun c => c.connection)).Nodup ∧
  ∀ e ∈ s.connectionPool, e.connection < s.nextConn

instance : DecidablePred WF := fun _s =>
  inferInstanceAs (Decidable (_ ∧ _))

/-- One client-visible pool operation, carrying the clock value and the
creation oracle it runs with. -/
inductive PoolOp where
  | acquire (now : Nat) (ok : Nat → Bool)
  | release (now h : Nat)

/-- Apply one operation to the pool state (the handle returned by an
acquire is discarded here; theorems inspect it separately). -/
def applyOp (PS : Nat) (s : PoolState) : PoolOp → PoolState
  | PoolOp.acquire now ok => (getConnection PS now ok s).1
  | PoolOp.release now h => releaseConnection PS now h s

/-- Run a sequence of acquire/release operations. -/
def runOps (PS : Nat) (s : PoolState) : List PoolOp → PoolState
  | [] => s
  | op :: rest => runOps PS (applyOp PS s op) rest

/-! ### Inversion lemmas for the linear scans -/

theorem splitFirst_eq_some (p : ConnEntry → Bool) :
    ∀ (pool pre post : List ConnEntry) (c : ConnEntry),
      splitFirst p pool = some (pre, c, post) →
      pool = pre ++ c :: post ∧ p c = true ∧ ∀ y ∈ pre, p y = false := by
  intro pool
  induction pool with
  | nil => intro pre post c h; simp [splitFirst] at h
  | cons a rest ih =>
    intro pre post c h
    by_cases hp : p a = true
    · rw [splitFirst, if_pos hp] at h
      have h' := Option.some.inj h
      simp only [Prod.mk.injEq] at h'
      obtain ⟨h1, h2, h3⟩ := h'
      subst h1; subst h2; subst h3
      exact ⟨rfl, hp, by simp⟩
    · rw [splitFirst, if_neg hp] at h
      cases hr : splitFirst p rest with
      | none => rw [hr] at h; simp at h
      | some r =>
        rw [hr] at h
        have h' := Option.some.inj h
        simp only [Prod.mk.injEq] at h'
        obtain ⟨h1, h2, h3⟩ := h'
        subst h1; subst h2; subst h3
        obtain ⟨hrest, hc, hprev⟩ := ih r.1 r.2.2 r.2.1 (by rw [hr])
        refine ⟨by rw [hrest]; simp, hc, ?_⟩
        intro y hy
        rcases List.mem_cons.mp hy with hy | hy
        · subst hy; exact Bool.not_eq_true _ ▸ eq_false_of_ne_true hp
        · exact hprev y hy

theorem splitFirst_eq_none (p : ConnEntry → Bool) :
    ∀ pool : List ConnEntry,
      splitFirst p pool = none ↔ ∀ e ∈ pool, p e = false := by
  intro pool
  induction pool with
  | nil => simp [splitFirst]
  | cons a rest ih =>
    by_cases hp : p a = true
    · rw [splitFirst, if_pos hp]
      constructor
      · intro h; exact Option.noConfusion h
      · intro hall
        have h2 := hall a (List.mem_cons_self a rest)
        rw [hp] at h2
        exact Bool.noConfusion h2
    · rw [splitFirst, if_neg hp]
      cases hr : splitFirst p rest with
      | none =>
        simp only [true_iff]
        intro e he
        rcases List.mem_cons.mp he with he | he
        · subst he; exact eq_false_of_ne_true hp
        · exact (ih.mp hr) e he
      | some r =>
        constructor
        · intro h; exact Option.noConfusion h
        · intro hall
          have hnone : splitFirst p rest = none :=
            ih.mpr (fun e he => hall e (List.mem_cons_of_mem a he))
          rw [hnone] at hr
          exact Option.noConfusion hr

theorem splitFirst_of_decomp (p : ConnEntry → Bool) (pre post : List ConnEntry) (c : ConnEntry)
    (hpre : ∀ y ∈ pre, p y = false) (hc : p c = true) :
    splitFirst p (pre ++ c :: post) = some (pre, c, post) := by
  induction pre with
  | nil => simp [splitFirst, hc]
  | cons a t ih =>
    have ha : p a = false := hpre a (by simp)
    have ih' := ih (fun y hy => hpre y (List.mem_cons_of_mem a hy))
    rw [List.cons_append, splitFirst, if_neg (by simp [ha]), ih']

/-! ### Characterization of the warm-up loop -/

theorem initLoop_spec (now : Nat) (ok : Nat → Bool) :
    ∀ (n : Nat) (s : PoolState),
      ∃ news : List ConnEntry,
        (initLoop now ok n s).1.connectionPool = s.connectionPool ++ news ∧
        news.length ≤ n ∧
        ((initLoop now ok n s).2 = true → news.length = n) ∧
        ((initLoop now ok n s).2 = false → news.length < n) ∧
        (initLoop now ok n s).1.nextConn = s.nextConn + news.length ∧
        (initLoop now ok n s).1.poolInitialized = s.poolInitialized ∧
        (initLoop now ok n s).1.idleConnectionTimer = s.idleConnectionTimer ∧
        (initLoop now ok n s).1.liveTimers = s.liveTimers ∧
        (initLoop now ok n s).1.nextTimer = s.nextTimer ∧
        (initLoop now ok n s).1.closed = s.closed ∧
        (news.map (fun c => c.connection)).Nodup ∧
        (∀ e ∈ news, e.inUse = false ∧ e.isExtra = false ∧ e.lastUsed = now ∧
          s.nextConn ≤ e.connection ∧ e.connection < s.nextConn + news.length) := by
  intro n
  induction n with
  | zero =>
    intro s
    exact ⟨[], by simp [initLoop], by simp, by simp, by simp [initLoop], by simp [initLoop],
      by simp [initLoop], by simp [initLoop], by simp [initLoop], by simp [initLoop],
      by simp [initLoop], by simp, by simp⟩
  | succ n ih =>
    intro s
    by_cases hok : ok s.nextConn = true
    · rw [initLoop, if_pos hok]
      obtain ⟨news', hpool, hlen, htrue, hfalse, hnext, hinit, htimer, hlive, hnextT,
        hclosed, hnd, hmem⟩ := ih
        { s with
            connectionPool := s.connectionPool ++
              [{ connection := s.nextConn, inUse := false, lastUsed := now, isExtra := false }],
            nextConn := s.nextConn + 1 }
      refine ⟨{ connection := s.nextConn, inUse := false, lastUsed := now,
                isExtra := false } :: news', ?_, ?_, ?_, ?_, ?_, ?_, ?_, ?_, ?_, ?_, ?_, ?_⟩
      · rw [hpool]; simp
      · simpa using Nat.succ_le_succ hlen
      · intro h2; have := htrue h2; simp [this]
      · intro h2; have := hfalse h2; simpa using Nat.succ_lt_succ this
      · rw [hnext]; simp only [List.length_cons]; omega
      · exact hinit
      · exact htimer
      · exact hlive
      · exact hnextT
      · exact hclosed
      · refine List.nodup_cons.mpr ⟨?_, hnd⟩
        intro hmem2
        simp only [List.mem_map] at hmem2
        obtain ⟨e, he, heq⟩ := hmem2
        have := (hmem e he).2.2.2.1
        simp only at this
        omega
      · intro e he
        rcases List.mem_cons.mp he with he | he
        · subst he
          refine ⟨rfl, rfl, rfl, Nat.le_refl _, ?_⟩
          simp only [List.length_cons]; omega
        · obtain ⟨h1, h2, h3, h4, h5⟩ := hmem e he
          simp only at h4 h5
          refine ⟨h1, h2, h3, by omega, by simp only [List.length_cons]; omega⟩
    · rw [initLoop, if_neg hok]
      exact ⟨[], by simp, by simp, by simp, by simp, by simp, by simp, by simp, by simp,
        by simp, by simp, by simp, by simp⟩

/-! ### Field lemmas for the idle-connection manager -/

theorem manageIdleConnections_connectionPool (s : PoolState) :
    (manageIdleConnections s).connectionPool = s.connectionPool := by
  obtain ⟨pool, init, nc, timer, live, nt, cl⟩ := s
  cases timer <;> rfl

theorem manageIdleConnections_poolInitialized (s : PoolState) :
    (manageIdleConnections s).poolInitialized = s.poolInitialized := by
  obtain ⟨pool, init, nc, timer, live, nt, cl⟩ := s
  cases timer <;> rfl

theorem manageIdleConnections_nextConn (s : PoolState) :
    (manageIdleConnections s).nextConn = s.nextConn := by
  obtain ⟨pool, init, nc, timer, live, nt, cl⟩ := s
  cases timer <;> rfl

theorem manageIdleConnections_closed (s : PoolState) :
    (manageIdleConnections s).closed = s.closed := by
  obtain ⟨pool, init, nc, timer, live, nt, cl⟩ := s
  cases timer <;> rfl

/-! ### Characterizations of pool initialization -/

theorem initializeConnectionPool_already (PS now : Nat) (ok : Nat → Bool) (s : PoolState)
    (h : s.poolInitialized = true) :
    initializeConnectionPool PS now ok s = (s, true) := by
  unfold initializeConnectionPool
  rw [if_pos h]

theorem initLoop_allOk (now : Nat) (ok : Nat → Bool) (hok : ∀ m, ok m = true) :
    ∀ (n : Nat) (s : PoolState), (initLoop now ok n s).2 = true := by
  intro n
  induction n with
  | zero => intro s; rfl
  | succ n ih =>
    intro s
    rw [initLoop, if_pos (hok s.nextConn)]
    exact ih _

theorem initializeConnectionPool_of_allOk (PS now : Nat) (ok : Nat → Bool) (s : PoolState)
    (hflag : s.poolInitialized = false) (hok : ∀ m, ok m = true) :
    initializeConnectionPool PS now ok s =
      (manageIdleConnections { (initLoop now ok PS s).1 with poolInitialized := true }, true) := by
  have hb : (initLoop now ok PS s).2 = true := initLoop_allOk now ok hok PS s
  have hpair : initLoop now ok PS s = ((initLoop now ok PS s).1, true) := by
    rw [← hb]
  unfold initializeConnectionPool
  rw [if_neg (by simp [hflag])]
  rw [hpair]

theorem initializeConnectionPool_success (PS now : Nat) (ok : Nat → Bool) (s s1 : PoolState)
    (hflag : s.poolInitialized = false)
    (h : initializeConnectionPool PS now ok s = (s1, true)) :
    ∃ news : List ConnEntry,
      s1.connectionPool = s.connectionPool ++ news ∧
      news.length = PS ∧
      s1.poolInitialized = true ∧
      s1.nextConn = s.nextConn + PS ∧
      s1.closed = s.closed ∧
      (news.map (fun c => c.connection)).Nodup ∧
      ∀ e ∈ news, e.inUse = false ∧ e.isExtra = false ∧
        s.nextConn ≤ e.connection ∧ e.connection < s.nextConn + PS := by
  unfold initializeConnectionPool at h
  rw [if_neg (by simp [hflag])] at h
  obtain ⟨news, hpool, _, htrue, _, hnext, _, _, _, _, hclosed, hnd, hmem⟩ :=
    initLoop_spec now ok PS s
  cases hp : initLoop now ok PS s with
  | mk s' b =>
    rw [hp] at h hpool htrue hnext hclosed
    cases b with
    | true =>
      have hlen : news.length = PS := htrue rfl
      have hs1 : s1 = manageIdleConnections { s' with poolInitialized := true } :=
        ((Prod.mk.injEq _ _ _ _).mp h).1.symm
      subst hs1
      refine ⟨news, ?_, hlen, ?_, ?_, ?_, hnd, ?_⟩
      · rw [manageIdleConnections_connectionPool]; exact hpool
      · rw [manageIdleConnections_poolInitialized]
      · rw [manageIdleConnections_nextConn]; simp only; rw [hnext, hlen]
      · rw [manageIdleConnections_closed]; exact hclosed
      · intro e he
        obtain ⟨h1, h2, _, h4, h5⟩ := hmem e he
        exact ⟨h1, h2, h4, by rw [← hlen]; exact h5⟩
    | false =>
      exact absurd ((Prod.mk.injEq _ _ _ _).mp h).2 (by simp)

theorem initializeConnectionPool_fail (PS now : Nat) (ok : Nat → Bool) (s s1 : PoolState)
    (hflag : s.poolInitialized = false)
    (h : initializeConnectionPool PS now ok s = (s1, false)) :
    ∃ news : List ConnEntry,
      s1.connectionPool = s.connectionPool ++ news ∧
      news.length < PS ∧
      s1.poolInitialized = false ∧
      s1.nextConn = s.nextConn + news.length ∧
      s1.closed = s.closed ∧
      (news.map (fun c => c.connection)).Nodup ∧
      ∀ e ∈ news, e.inUse = false ∧ e.isExtra = false ∧
        s.nextConn ≤ e.connection ∧ e.connection < s.nextConn + news.length := by
  unfold initializeConnectionPool at h
  rw [if_neg (by simp [hflag])] at h
  obtain ⟨news, hpool, _, _, hfalse, hnext, hinit, _, _, _, hclosed, hnd, hmem⟩ :=
    initLoop_spec now ok PS s
  cases hp : initLoop now ok PS s with
  | mk s' b =>
    rw [hp] at h hpool hfalse hnext hinit hclosed
    cases b with
    | true =>
      exact absurd ((Prod.mk.injEq _ _ _ _).mp h).2 (by simp)
    | false =>
      have hs1 : s1 = s' := ((Prod.mk.injEq _ _ _ _).mp h).1.symm
      subst hs1
      refine ⟨news, hpool, hfalse rfl, by rw [hinit]; exact hflag, hnext, hclosed, hnd, ?_⟩
      intro e he
      obtain ⟨h1, h2, _, h4, h5⟩ := hmem e he
      exact ⟨h1, h2, h4, h5⟩

/-! ### Helpers about distinct handles -/

theorem nodup_handles_append (pool news : List ConnEntry) (nc : Nat)
    (hnd : (pool.map (fun c => c.connection)).Nodup)
    (hlt : ∀ e ∈ pool, e.connection < nc)
    (hndnews : (news.map (fun c => c.connection)).Nodup)
    (hbound : ∀ e ∈ news, nc ≤ e.connection) :
    ((pool ++ news).map (fun c => c.connection)).Nodup := by
  rw [List.map_append]
  refine List.nodup_append.mpr ⟨hnd, hndnews, ?_⟩
  intro a ha hb
  obtain ⟨e1, he1, heq1⟩ := List.mem_map.mp ha
  obtain ⟨e2, he2, heq2⟩ := List.mem_map.mp hb
  have := hlt e1 he1
  have := hbound e2 he2
  omega

theorem eq_of_mem_nodup_handles (pre post : List ConnEntry) (c e : ConnEntry)
    (hnd : ((pre ++ c :: post).map (fun x => x.connection)).Nodup)
    (he : e ∈ pre ++ c :: post) (hc : e.connection = c.connection) : e = c := by
  rw [List.map_append] at hnd
  obtain ⟨hnd1, hnd2, hdisj⟩ := List.nodup_append.mp hnd
  rcases List.mem_append.mp he with he | he
  · exfalso
    refine hdisj (List.mem_map.mpr ⟨e, he, rfl⟩) ?_
    rw [hc]
    exact List.mem_map.mpr ⟨c, List.mem_cons_self c post, rfl⟩
  · rcases List.mem_cons.mp he with he | he
    · exact he
    · exfalso
      simp only [List.map_cons, List.nodup_cons] at hnd2
      exact hnd2.1 (hc ▸ List.mem_map.mpr ⟨e, he, rfl⟩)

/-! ### Equation lemmas for acquire and release -/

theorem getConnectionBody_found (now : Nat) (ok : Nat → Bool) (s : PoolState)
    (pre post : List ConnEntry) (c : ConnEntry)
    (hr : findFirstIdle s.connectionPool = some (pre, c, post)) :
    getConnectionBody now ok s =
      ({ s with connectionPool := pre ++ { c with inUse := true, lastUsed := now } :: post },
       Except.ok c.connection) := by
  unfold getConnectionBody
  rw [hr]

theorem getConnectionBody_exhausted (now : Nat) (ok : Nat → Bool) (s : PoolState)
    (hr : findFirstIdle s.connectionPool = none) :
    getConnectionBody now ok s =
      if ok s.nextConn = true then
        ({ s with
            connectionPool := s.connectionPool ++
              [{ connection := s.nextConn, inUse := true, lastUsed := now, isExtra := true }],
            nextConn := s.nextConn + 1 },
         Except.ok s.nextConn)
      else (s, Except.error (JsError.databaseError "Failed to connect to database")) := by
  unfold getConnectionBody
  rw [hr]

theorem releaseConnection_notFound (PS now h : Nat) (s : PoolState)
    (hr : splitAtHandle h s.connectionPool = none) :
    releaseConnection PS now h s = s := by
  unfold releaseConnection
  rw [hr]

theorem releaseConnection_found (PS now h : Nat) (s : PoolState)
    (pre post : List ConnEntry) (c : ConnEntry)
    (hr : splitAtHandle h s.connectionPool = some (pre, c, post)) :
    releaseConnection PS now h s =
      if ({ c with inUse := false, lastUsed := now }.isExtra &&
          decide (PS < idleCount (pre ++ { c with inUse := false, lastUsed := now } :: post)))
          = true then
        { s with connectionPool := pre ++ post, closed := s.closed ++ [c.connection] }
      else
        { s with connectionPool := pre ++ { c with inUse := false, lastUsed := now } :: post } := by
  unfold releaseConnection
  rw [hr]

/-! ### Preservation of well-formedness -/

theorem WF_initializeConnectionPool (PS now : Nat) (ok : Nat → Bool) (s s1 : PoolState) (b : Bool)
    (hwf : WF s) (h : initializeConnectionPool PS now ok s = (s1, b)) : WF s1 := by
  by_cases hflag : s.poolInitialized = true
  · rw [initializeConnectionPool_already PS now ok s hflag] at h
    have := ((Prod.mk.injEq _ _ _ _).mp h).1
    rw [← this]; exact hwf
  · have hflag' : s.poolInitialized = false := by
      cases hb : s.poolInitialized
      · rfl
      · exact absurd hb hflag
    cases b with
    | true =>
      obtain ⟨news, hpool, hlen, _, hnext, _, hnd, hmem⟩ :=
        initializeConnectionPool_success PS now ok s s1 hflag' h
      constructor
      · rw [hpool]
        exact nodup_handles_append s.connectionPool news s.nextConn hwf.1 hwf.2 hnd
          (fun e he => (hmem e he).2.2.1)
      · intro e he
        rw [hpool] at he
        rw [hnext]
        rcases List.mem_append.mp he with he | he
        · have := hwf.2 e he; omega
        · exact (hmem e he).2.2.2
    | false =>
      obtain ⟨news, hpool, _, _, hnext, _, hnd, hmem⟩ :=
        initializeConnectionPool_fail PS now ok s s1 hflag' h
      constructor
      · rw [hpool]
        exact nodup_handles_append s.connectionPool news s.nextConn hwf.1 hwf.2 hnd
          (fun e he => (hmem e he).2.2.1)
      · intro e he
        rw [hpool] at he
        rw [hnext]
        rcases List.mem_append.mp he with he | he
        · have := hwf.2 e he; omega
        · exact (hmem e he).2.2.2

theorem WF_getConnectionBody (now : Nat) (ok : Nat → Bool) (s : PoolState) (hwf : WF s) :
    WF (getConnectionBody now ok s).1 := by
  cases hr : findFirstIdle s.connectionPool with
  | some r =>
    obtain ⟨hdec, _, _⟩ :=
      splitFirst_eq_some (fun c => !c.inUse) s.connectionPool r.1 r.2.2 r.2.1 hr
    rw [getConnectionBody_found now ok s r.1 r.2.2 r.2.1 hr]
    constructor
    · simp only
      have hmap : ((r.1 ++ { r.2.1 with inUse := true, lastUsed := now } :: r.2.2).map
          (fun c => c.connection)) =
          ((r.1 ++ r.2.1 :: r.2.2).map (fun c => c.connection)) := by
        simp [List.map_append]
      rw [hmap, ← hdec]
      exact hwf.1
    · intro e he
      simp only at he ⊢
      rcases List.mem_append.mp he with he | he
      · exact hwf.2 e (by rw [hdec]; exact List.mem_append_left _ he)
      · rcases List.mem_cons.mp he with he | he
        · subst he
          exact hwf.2 r.2.1 (by rw [hdec]; exact List.mem_append_right _ (List.mem_cons_self _ _))
        · exact hwf.2 e (by rw [hdec]; exact List.mem_append_right _ (List.mem_cons_of_mem _ he))
  | none =>
    rw [getConnectionBody_exhausted now ok s hr]
    by_cases hok : ok s.nextConn = true
    · rw [if_pos hok]
      constructor
      · simp only
        refine nodup_handles_append s.connectionPool _ s.nextConn hwf.1 hwf.2 (by simp) ?_
        intro e he
        rcases List.mem_singleton.mp he with rfl
        exact Nat.le_refl _
      · intro e he
        simp only at he ⊢
        rcases List.mem_append.mp he with he | he
        · have := hwf.2 e he; omega
        · rcases List.mem_singleton.mp he with rfl
          simp
    · rw [if_neg hok]
      exact hwf

theorem WF_getConnection (PS now : Nat) (ok : Nat → Bool) (s : PoolState) (hwf : WF s) :
    WF (getConnection PS now ok s).1 := by
  unfold getConnection
  by_cases hflag : s.poolInitialized = true
  · rw [if_pos hflag]
    exact WF_getConnectionBody now ok s hwf
  · rw [if_neg hflag]
    cases hp : initializeConnectionPool PS now ok s with
    | mk s1 b =>
      have hwf1 : WF s1 := WF_initializeConnectionPool PS now ok s s1 b hwf hp
      cases b with
      | true => exact WF_getConnectionBody now ok s1 hwf1
      | false => exact hwf1

theorem WF_releaseConnection (PS now h : Nat) (s : PoolState) (hwf : WF s) :
    WF (releaseConnection PS now h s) := by
  cases hr : splitAtHandle h s.connectionPool with
  | none => rw [releaseConnection_notFound PS now h s hr]; exact hwf
  | some r =>
    obtain ⟨hdec, _, _⟩ :=
      splitFirst_eq_some (fun c => decide (c.connection = h)) s.connectionPool r.1 r.2.2 r.2.1 hr
    rw [releaseConnection_found PS now h s r.1 r.2.2 r.2.1 hr]
    by_cases hcond : ({ r.2.1 with inUse := false, lastUsed := now }.isExtra &&
        decide (PS < idleCount (r.1 ++ { r.2.1 with inUse := false, lastUsed := now } :: r.2.2)))
        = true
    · rw [if_pos hcond]
      constructor
      · simp only
        have hsub : (r.1 ++ r.2.2).Sublist (r.1 ++ r.2.1 :: r.2.2) :=
          List.Sublist.append_left (List.sublist_cons_self r.2.1 r.2.2) r.1
        have := (hsub.map (fun c => c.connection)).nodup (by rw [← hdec]; exact hwf.1)
        exact this
      · intro e he
        simp only at he ⊢
        rcases List.mem_append.mp he with he | he
        · exact hwf.2 e (by rw [hdec]; exact List.mem_append_left _ he)
        · exact hwf.2 e (by rw [hdec]; exact List.mem_append_right _ (List.mem_cons_of_mem _ he))
    · rw [if_neg hcond]
      constructor
      · simp only
        have hmap : ((r.1 ++ { r.2.1 with inUse := false, lastUsed := now } :: r.2.2).map
            (fun c => c.connection)) =
            ((r.1 ++ r.2.1 :: r.2.2).map (fun c => c.connection)) := by
          simp [List.map_append]
        rw [hmap, ← hdec]
        exact hwf.1
      · intro e he
        simp only at he ⊢
        rcases List.mem_append.mp he with he | he
        · exact hwf.2 e (by rw [hdec]; exact List.mem_append_left _ he)
        · rcases List.mem_cons.mp he with he | he
          · subst he
            exact hwf.2 r.2.1 (by rw [hdec]; exact List.mem_append_right _ (List.mem_cons_self _ _))
          · exact hwf.2 e (by rw [hdec]; exact List.mem_append_right _ (List.mem_cons_of_mem _ he))

/-! ### The initialized flag through acquire and release -/

theorem getConnectionBody_poolInitialized (now : Nat) (ok : Nat → Bool) (s : PoolState) :
    (getConnectionBody now ok s).1.poolInitialized = s.poolInitialized := by
  cases hr : findFirstIdle s.connectionPool with
  | some r =>
    rw [getConnectionBody_found now ok s r.1 r.2.2 r.2.1 hr]
  | none =>
    rw [getConnectionBody_exhausted now ok s hr]
    split <;> rfl

theorem getConnection_poolInitialized_of_init (PS now : Nat) (ok : Nat → Bool) (s : PoolState)
    (h : s.poolInitialized = true) :
    (getConnection PS now ok s).1.poolInitialized = true := by
  unfold getConnection
  rw [if_pos h, getConnectionBody_poolInitialized, h]

theorem releaseConnection_poolInitialized (PS now h : Nat) (s : PoolState) :
    (releaseConnection PS now h s).poolInitialized = s.poolInitialized := by
  cases hr : splitAtHandle h s.connectionPool with
  | none => rw [releaseConnection_notFound PS now h s hr]
  | some r =>
    rw [releaseConnection_found PS now h s r.1 r.2.2 r.2.1 hr]
    split <;> rfl

/-! ### Acquire hands out only idle or brand-new handles -/

theorem getConnectionBody_no_double_borrow (now : Nat) (ok : Nat → Bool) (s s' : PoolState)
    (h : Nat) (hwf : WF s) (hacq : getConnectionBody now ok s = (s', Except.ok h)) :
    (∀ e ∈ s.connectionPool, e.connection = h → e.inUse = false) ∧
    (∃ e ∈ s'.connectionPool, e.connection = h ∧ e.inUse = true) := by
  cases hr : findFirstIdle s.connectionPool with
  | some r =>
    obtain ⟨hdec, hc, _⟩ :=
      splitFirst_eq_some (fun c => !c.inUse) s.connectionPool r.1 r.2.2 r.2.1 hr
    rw [getConnectionBody_found now ok s r.1 r.2.2 r.2.1 hr] at hacq
    have hs' := (((Prod.mk.injEq _ _ _ _).mp hacq).1).symm
    have hh : h = r.2.1.connection :=
      (Except.ok.inj (((Prod.mk.injEq _ _ _ _).mp hacq).2)).symm
    subst hs'
    subst hh
    constructor
    · intro e he heq
      have he2 : e = r.2.1 :=
        eq_of_mem_nodup_handles r.1 r.2.2 r.2.1 e (by rw [← hdec]; exact hwf.1)
          (hdec ▸ he) heq
      subst he2
      simpa using hc
    · exact ⟨{ r.2.1 with inUse := true, lastUsed := now },
        List.mem_append_right _ (List.mem_cons_self _ _), rfl, rfl⟩
  | none =>
    rw [getConnectionBody_exhausted now ok s hr] at hacq
    by_cases hok : ok s.nextConn = true
    · rw [if_pos hok] at hacq
      have hs' := (((Prod.mk.injEq _ _ _ _).mp hacq).1).symm
      have hh : h = s.nextConn :=
        (Except.ok.inj (((Prod.mk.injEq _ _ _ _).mp hacq).2)).symm
      subst hs'
      subst hh
      constructor
      · intro e he heq
        have := hwf.2 e he
        omega
      · exact ⟨{ connection := s.nextConn, inUse := true, lastUsed := now, isExtra := true },
          List.mem_append_right _ (List.mem_singleton_self _), rfl, rfl⟩
    · rw [if_neg hok] at hacq
      exact absurd (((Prod.mk.injEq _ _ _ _).mp hacq).2) (by simp)

theorem getConnection_no_double_borrow (PS now : Nat) (ok : Nat → Bool) (s s' : PoolState)
    (h : Nat) (hwf : WF s) (hinit : s.poolInitialized = true)
    (hacq : getConnection PS now ok s = (s', Except.ok h)) :
    (∀ e ∈ s.connectionPool, e.connection = h → e.inUse = false) ∧
    (∃ e ∈ s'.connectionPool, e.connection = h ∧ e.inUse = true) := by
  unfold getConnection at hacq
  rw [if_pos hinit] at hacq
  exact getConnectionBody_no_double_borrow now ok s s' h hwf hacq

/-! ### Invariant preservation along arbitrary call sequences -/

theorem runOps_WF (PS : Nat) :
    ∀ (l : List PoolOp) (s : PoolState), WF s → s.poolInitialized = true →
      WF (runOps PS s l) ∧ (runOps PS s l).poolInitialized = true := by
  intro l
  induction l with
  | nil => intro s hwf hinit; exact ⟨hwf, hinit⟩
  | cons op rest ih =>
    intro s hwf hinit
    have hstep : WF (applyOp PS s op) ∧ (applyOp PS s op).poolInitialized = true := by
      cases op with
      | acquire now ok =>
        exact ⟨WF_getConnection PS now ok s hwf,
          getConnection_poolInitialized_of_init PS now ok s hinit⟩
      | release now h =>
        refine ⟨WF_releaseConnection PS now h s hwf, ?_⟩
        have := releaseConnection_poolInitialized PS now h s
        rw [hinit] at this
        exact this
    exact ih (applyOp PS s op) hstep.1 hstep.2

/-! ### Concrete states used by the witnesses -/

/-- `ok` oracle under which every connection creation succeeds. -/
def okAll : Nat → Bool := fun _ => true

/-- An initialized, well-formed pool with one idle base connection. -/
def s0ex : PoolState :=
  { connectionPool := [{ connection := 0, inUse := false, lastUsed := 0, isExtra := false }],
    poolInitialized := true, nextConn := 1,
    idleConnectionTimer := some 0, liveTimers := [0], nextTimer := 1, closed := [] }

/-- The pool `s0ex` after acquiring its base connection and then
acquiring a second (overflow) connection. -/
def s0exAfter : PoolState :=
  { connectionPool :=
      [{ connection := 0, inUse := true, lastUsed := 1, isExtra := false },
       { connection := 1, inUse := true, lastUsed := 2, isExtra := true }],
    poolInitialized := true, nextConn := 2,
    idleConnectionTimer := some 0, liveTimers := [0], nextTimer := 1, closed := [] }

/-- C1: for every sequence of acquire/release calls on an initialized
well-formed pool, whenever `getConnection` returns a handle, every
registry entry carrying that handle was idle (`inUse = false`) at the
moment of hand-out — so no handle with an outstanding borrow is ever
returned — and the handed-out entry is immediately marked
`inUse = true`. -/
theorem claim1_no_double_borrow (PS now : Nat) (ok : Nat → Bool) (s0 : PoolState)
    (hwf : WF s0) (hinit : s0.poolInitialized = true) (l : List PoolOp)
    (s' : PoolState) (h : Nat)
    (hacq : getConnection PS now ok (runOps PS s0 l) = (s', Except.ok h)) :
    (∀ e ∈ (runOps PS s0 l).connectionPool, e.connection = h → e.inUse = false) ∧
    (∃ e ∈ s'.connectionPool, e.connection = h ∧ e.inUse = true) := by
  obtain ⟨hwf', hinit'⟩ := runOps_WF PS l s0 hwf hinit
  exact getConnection_no_double_borrow PS now ok _ s' h hwf' hinit' hacq

/-- Witness for C1 at a concrete pool, trace and acquire. -/
theorem claim1_no_double_borrow_witness :
    (∀ e ∈ (runOps 1 s0ex [PoolOp.acquire 1 okAll]).connectionPool,
        e.connection = 1 → e.inUse = false) ∧
    (∃ e ∈ s0exAfter.connectionPool, e.connection = 1 ∧ e.inUse = true) :=
  claim1_no_double_borrow 1 2 okAll s0ex (by decide) (by decide)
    [PoolOp.acquire 1 okAll] s0exAfter 1 (by rfl)

/-- C4: on an initialized well-formed pool, `getConnection` returns the
first registry entry (in list order) with `inUse = false`, marking it
in-use with a refreshed `lastUsed`; when every entry is in use it
appends one new overflow entry (`inUse = true, isExtra = true`) and
returns its handle, which differs from every existing entry's handle. -/
theorem claim4_getConnection_behavior (PS now : Nat) (ok : Nat → Bool) (s : PoolState)
    (hinit : s.poolInitialized = true) (hwf : WF s) :
    (∀ pre c post, s.connectionPool = pre ++ c :: post →
       (∀ y ∈ pre, y.inUse = true) → c.inUse = false →
       getConnection PS now ok s =
         ({ s with connectionPool := pre ++ { c with inUse := true, lastUsed := now } :: post },
          Except.ok c.connection)) ∧
    ((∀ e ∈ s.connectionPool, e.inUse = true) → ok s.nextConn = true →
       getConnection PS now ok s =
         ({ s with
             connectionPool := s.connectionPool ++
               [{ connection := s.nextConn, inUse := true, lastUsed := now, isExtra := true }],
             nextConn := s.nextConn + 1 },
          Except.ok s.nextConn) ∧
       ∀ e ∈ s.connectionPool, e.connection ≠ s.nextConn) := by
  constructor
  · intro pre c post hdec hpre hc
    have hfind : findFirstIdle s.connectionPool = some (pre, c, post) := by
      rw [hdec]
      exact splitFirst_of_decomp (fun x => !x.inUse) pre post c
        (fun y hy => by simp [hpre y hy]) (by simp [hc])
    unfold getConnection
    rw [if_pos hinit]
    exact getConnectionBody_found now ok s pre post c hfind
  · intro hall hok
    have hfind : findFirstIdle s.connectionPool = none := by
      apply (splitFirst_eq_none (fun x => !x.inUse) s.connectionPool).mpr
      intro e he
      simp [hall e he]
    refine ⟨?_, ?_⟩
    · unfold getConnection
      rw [if_pos hinit, getConnectionBody_exhausted now ok s hfind, if_pos hok]
    · intro e he
      have := hwf.2 e he
      omega

/-- Witness for C4: the single idle base entry of `s0ex` is handed out
and marked busy. -/
theorem claim4_getConnection_behavior_witness :
    getConnection 5 7 okAll s0ex =
      ({ s0ex with
          connectionPool := [{ connection := 0, inUse := true, lastUsed := 7, isExtra := false }] },
       Except.ok 0) :=
  (claim4_getConnection_behavior 5 7 okAll s0ex (by decide) (by decide)).1
    [] { connection := 0, inUse := false, lastUsed := 0, isExtra := false } [] rfl
    (by simp) rfl

/-- C8: releasing a handle that matches no registry entry is a no-op:
no error, and the state (hence every entry and the registry size) is
unchanged. -/
theorem claim8_release_unknown_noop (PS now h : Nat) (s : PoolState)
    (hno : ∀ e ∈ s.connectionPool, e.connection ≠ h) :
    releaseConnection PS now h s = s := by
  refine releaseConnection_notFound PS now h s ?_
  exact (splitFirst_eq_none (fun c => decide (c.connection = h)) s.connectionPool).mpr
    (fun e he => by simp [hno e he])

/-- Witness for C8: releasing the unknown handle 42 leaves `s0ex`
untouched. -/
theorem claim8_release_unknown_noop_witness :
    releaseConnection 5 9 42 s0ex = s0ex :=
  claim8_release_unknown_noop 5 9 42 s0ex (by decide)

/-- An initialized pool holding one in-use overflow connection. -/
def sExtraEx : PoolState :=
  { connectionPool := [{ connection := 0, inUse := true, lastUsed := 0, isExtra := true }],
    poolInitialized := true, nextConn := 1,
    idleConnectionTimer := some 0, liveTimers := [0], nextTimer := 1, closed := [] }

/-- C5: releasing an overflow entry closes and removes it exactly when,
after marking it idle, the idle count strictly exceeds `POOL_SIZE`
(registry shrinks by one and the handle is recorded closed); otherwise
the entry stays, idle, with a refreshed `lastUsed`. -/
theorem claim5_release_overflow (PS now h : Nat) (s : PoolState)
    (pre post : List ConnEntry) (c : ConnEntry)
    (hdec : s.connectionPool = pre ++ c :: post)
    (hpre : ∀ y ∈ pre, y.connection ≠ h)
    (hc : c.connection = h) (hextra : c.isExtra = true) :
    (PS < idleCount (pre ++ { c with inUse := false, lastUsed := now } :: post) →
       releaseConnection PS now h s =
         { s with connectionPool := pre ++ post, closed := s.closed ++ [h] } ∧
       (releaseConnection PS now h s).connectionPool.length + 1 = s.connectionPool.length ∧
       h ∈ (releaseConnection PS now h s).closed) ∧
    (¬ PS < idleCount (pre ++ { c with inUse := false, lastUsed := now } :: post) →
       releaseConnection PS now h s =
         { s with connectionPool := pre ++ { c with inUse := false, lastUsed := now } :: post } ∧
       (releaseConnection PS now h s).connectionPool.length = s.connectionPool.length) := by
  have hsplit : splitAtHandle h s.connectionPool = some (pre, c, post) := by
    rw [hdec]
    exact splitFirst_of_decomp (fun x => decide (x.connection = h)) pre post c
      (fun y hy => by simp [hpre y hy]) (by simp [hc])
  have heq := releaseConnection_found PS now h s pre post c hsplit
  constructor
  · intro hidle
    have hcond : ({ c with inUse := false, lastUsed := now }.isExtra &&
        decide (PS < idleCount (pre ++ { c with inUse := false, lastUsed := now } :: post)))
        = true := by
      rw [Bool.and_eq_true]
      exact ⟨hextra, decide_eq_true hidle⟩
    rw [heq, if_pos hcond]
    refine ⟨?_, ?_, ?_⟩
    · rw [hc]
    · show (pre ++ post).length + 1 = s.connectionPool.length
      rw [hdec]
      simp only [List.length_append, List.length_cons]
      omega
    · show h ∈ s.closed ++ [c.connection]
      rw [hc]
      exact List.mem_append_right _ (List.mem_singleton_self h)
  · intro hidle
    have hcond : ¬ (({ c with inUse := false, lastUsed := now }.isExtra &&
        decide (PS < idleCount (pre ++ { c with inUse := false, lastUsed := now } :: post)))
        = true) := by
      rw [Bool.and_eq_true]
      rintro ⟨h1, h2⟩
      exact hidle (of_decide_eq_true h2)
    rw [heq, if_neg hcond]
    refine ⟨rfl, ?_⟩
    show (pre ++ { c with inUse := false, lastUsed := now } :: post).length
        = s.connectionPool.length
    rw [hdec]
    simp only [List.length_append, List.length_cons]

/-- Witness for C5: with `POOL_SIZE = 0`, releasing the overflow entry
of `sExtraEx` eagerly closes and removes it. -/
theorem claim5_release_overflow_witness :
    releaseConnection 0 5 0 sExtraEx =
      { sExtraEx with connectionPool := [], closed := [0] } ∧
    (releaseConnection 0 5 0 sExtraEx).connectionPool.length + 1 =
      sExtraEx.connectionPool.length ∧
    0 ∈ (releaseConnection 0 5 0 sExtraEx).closed :=
  (claim5_release_overflow 0 5 0 sExtraEx [] []
      { connection := 0, inUse := true, lastUsed := 0, isExtra := true }
      rfl (by simp) rfl rfl).1 (by decide)

/-- Pointwise form of the reaper's filter condition. -/
theorem isReapable_iff (T now : Nat) (c : ConnEntry) :
    isReapable T now c = true ↔
      (c.inUse = false ∧ c.isExtra = true ∧ T < now - c.lastUsed) := by
  unfold isReapable
  simp [Bool.and_eq_true, Bool.not_eq_true', and_assoc]

/-- C6: one reaper tick removes exactly the entries with
`inUse = false`, `isExtra = true` and idle time strictly above `T`
(each removed handle is closed), and never removes a base
(`isExtra = false`) entry, however long idle. -/
theorem claim6_reaper_tick (T now : Nat) (s : PoolState) :
    (∀ e, e ∈ (reaperTick T now s).connectionPool ↔
       e ∈ s.connectionPool ∧
       ¬(e.inUse = false ∧ e.isExtra = true ∧ T < now - e.lastUsed)) ∧
    (∀ e ∈ s.connectionPool, e.inUse = false → e.isExtra = true → T < now - e.lastUsed →
       e.connection ∈ (reaperTick T now s).closed) ∧
    (∀ e ∈ s.connectionPool, e.isExtra = false → e ∈ (reaperTick T now s).connectionPool) := by
  refine ⟨?_, ?_, ?_⟩
  · intro e
    unfold reaperTick
    simp only [List.mem_filter, Bool.not_eq_true']
    constructor
    · rintro ⟨he, hf⟩
      refine ⟨he, fun hx => ?_⟩
      rw [(isReapable_iff T now e).mpr hx] at hf
      exact Bool.noConfusion hf
    · rintro ⟨he, hn⟩
      refine ⟨he, ?_⟩
      cases hb : isReapable T now e with
      | false => rfl
      | true => exact absurd ((isReapable_iff T now e).mp hb) hn
  · intro e he h1 h2 h3
    unfold reaperTick
    simp only
    refine List.mem_append_right _ ?_
    exact List.mem_map.mpr ⟨e, List.mem_filter.mpr
      ⟨he, (isReapable_iff T now e).mpr ⟨h1, h2, h3⟩⟩, rfl⟩
  · intro e he hbase
    unfold reaperTick
    simp only [List.mem_filter]
    refine ⟨he, ?_⟩
    simp [isReapable, hbase]

/-- An initialized pool holding one idle overflow entry (idle since
time 0) and one idle base entry. -/
def sReapEx : PoolState :=
  { connectionPool :=
      [{ connection := 0, inUse := false, lastUsed := 0, isExtra := false },
       { connection := 1, inUse := false, lastUsed := 0, isExtra := true }],
    poolInitialized := true, nextConn := 2,
    idleConnectionTimer := some 0, liveTimers := [0], nextTimer := 1, closed := [] }

/-- Witness for C6: at `T = 3, now = 10` the idle overflow entry of
`sReapEx` is closed on the tick. -/
theorem claim6_reaper_tick_witness :
    1 ∈ (reaperTick 3 10 sReapEx).closed :=
  (claim6_reaper_tick 3 10 sReapEx).2.1
    { connection := 1, inUse := false, lastUsed := 0, isExtra := true }
    (by decide) rfl rfl (by decide)

/-- C3: a successful `initializeConnectionPool` from a fresh (empty,
uninitialized) registry leaves exactly `POOL_SIZE` entries, all idle and
all base; a second consecutive call is a complete no-op (same state, so
no extra entries and no extra reaper timer). -/
theorem claim3_initialize_idempotent (PS now now2 : Nat) (ok ok2 : Nat → Bool)
    (s s1 : PoolState)
    (hempty : s.connectionPool = []) (hflag : s.poolInitialized = false)
    (hsucc : initializeConnectionPool PS now ok s = (s1, true)) :
    s1.connectionPool.length = PS ∧
    (∀ e ∈ s1.connectionPool, e.inUse = false ∧ e.isExtra = false) ∧
    s1.poolInitialized = true ∧
    initializeConnectionPool PS now2 ok2 s1 = (s1, true) := by
  obtain ⟨news, hpool, hlen, hinitflag, _, _, _, hmem⟩ :=
    initializeConnectionPool_success PS now ok s s1 hflag hsucc
  have hpool' : s1.connectionPool = news := by rw [hpool, hempty]; rfl
  refine ⟨?_, ?_, hinitflag, ?_⟩
  · rw [hpool']; exact hlen
  · intro e he
    rw [hpool'] at he
    obtain ⟨h1, h2, _⟩ := hmem e he
    exact ⟨h1, h2⟩
  · exact initializeConnectionPool_already PS now2 ok2 s1 hinitflag

/-- The pool produced by a successful warm-up of size 5 (default
`POOL_SIZE`) from the fresh state at time 0. -/
def s1ex : PoolState :=
  { connectionPool :=
      [{ connection := 0, inUse := false, lastUsed := 0, isExtra := false },
       { connection := 1, inUse := false, lastUsed := 0, isExtra := false },
       { connection := 2, inUse := false, lastUsed := 0, isExtra := false },
       { connection := 3, inUse := false, lastUsed := 0, isExtra := false },
       { connection := 4, inUse := false, lastUsed := 0, isExtra := false }],
    poolInitialized := true, nextConn := 5,
    idleConnectionTimer := some 0, liveTimers := [0], nextTimer := 1, closed := [] }

/-- Witness for C3 at the default pool size 5. -/
theorem claim3_initialize_idempotent_witness :
    s1ex.connectionPool.length = 5 ∧
    (∀ e ∈ s1ex.connectionPool, e.inUse = false ∧ e.isExtra = false) ∧
    s1ex.poolInitialized = true ∧
    initializeConnectionPool 5 1 okAll s1ex = (s1ex, true) :=
  claim3_initialize_idempotent 5 0 1 okAll okAll freshPoolState s1ex rfl rfl (by rfl)

/-- C10: when warm-up fails after creating `k` connections
(`0 ≤ k < POOL_SIZE`) starting from an empty registry, those `k` idle
base entries remain while `poolInitialized` stays false, and a later
successful `initializeConnectionPool` creates `POOL_SIZE` more entries,
leaving `k + POOL_SIZE` entries — so "exactly `POOL_SIZE` after
initialize" holds only from an empty registry. -/
theorem claim10_init_not_atomic (PS now now2 : Nat) (ok ok2 : Nat → Bool)
    (s s1 : PoolState)
    (hempty : s.connectionPool = []) (hflag : s.poolInitialized = false)
    (hfail : initializeConnectionPool PS now ok s = (s1, false))
    (hok2 : ∀ n, ok2 n = true) :
    s1.poolInitialized = false ∧
    s1.connectionPool.length < PS ∧
    (∀ e ∈ s1.connectionPool, e.inUse = false ∧ e.isExtra = false) ∧
    ∃ s2, initializeConnectionPool PS now2 ok2 s1 = (s2, true) ∧
      s2.connectionPool.length = s1.connectionPool.length + PS := by
  obtain ⟨news, hpool, hlt, hflag1, _, _, _, hmem⟩ :=
    initializeConnectionPool_fail PS now ok s s1 hflag hfail
  have hpool' : s1.connectionPool = news := by rw [hpool, hempty]; rfl
  refine ⟨hflag1, by rw [hpool']; exact hlt, ?_, ?_⟩
  · intro e he
    rw [hpool'] at he
    obtain ⟨h1, h2, _⟩ := hmem e he
    exact ⟨h1, h2⟩
  · have h2 := initializeConnectionPool_of_allOk PS now2 ok2 s1 hflag1 hok2
    obtain ⟨news2, hpool2, hlen2, _, _, _, _, _⟩ :=
      initializeConnectionPool_success PS now2 ok2 s1 _ hflag1 h2
    exact ⟨_, h2, by rw [hpool2, List.length_append, hlen2]⟩

/-- Creation oracle under which only the connection with identifier 0
can be created. -/
def okZero : Nat → Bool := fun n => n == 0

/-- The state left behind by a failed warm-up of size 2 under `okZero`:
one base entry was created, the flag was never set. -/
def sFailEx : PoolState :=
  { connectionPool := [{ connection := 0, inUse := false, lastUsed := 0, isExtra := false }],
    poolInitialized := false, nextConn := 1,
    idleConnectionTimer := none, liveTimers := [], nextTimer := 0, closed := [] }

/-- Witness for C10 with `POOL_SIZE = 2` and a failure after one
creation: the retry leaves `1 + 2` entries. -/
theorem claim10_init_not_atomic_witness :
    sFailEx.poolInitialized = false ∧
    sFailEx.connectionPool.length < 2 ∧
    (∀ e ∈ sFailEx.connectionPool, e.inUse = false ∧ e.isExtra = false) ∧
    ∃ s2, initializeConnectionPool 2 7 okAll sFailEx = (s2, true) ∧
      s2.connectionPool.length = sFailEx.connectionPool.length + 2 :=
  claim10_init_not_atomic 2 0 7 okZero okAll freshPoolState sFailEx rfl rfl (by rfl)
    (fun _ => rfl)

/-- State-level description of `closeAllConnections`. -/
theorem closeAllConnections_spec (closeOk : Nat → Bool) (s : PoolState) :
    (closeAllConnections closeOk s).idleConnectionTimer = none ∧
    (closeAllConnections closeOk s).connectionPool = [] ∧
    (closeAllConnections closeOk s).poolInitialized = false ∧
    (closeAllConnections closeOk s).closed =
      s.closed ++
        ((s.connectionPool.filter (fun c => closeOk c.connection)).map (fun c => c.connection)) ∧
    (closeAllConnections closeOk s).liveTimers =
      (match s.idleConnectionTimer with
       | some t => s.liveTimers.erase t
       | none => s.liveTimers) := by
  obtain ⟨pool, init, nc, timer, live, nt, cl⟩ := s
  cases timer <;> exact ⟨rfl, rfl, rfl, rfl, rfl⟩

/-- C7: shutdown cancels the reaper timer, attempts to close every
pooled handle (individual failures are swallowed, so the function always
completes and every successfully closed handle is recorded), and leaves
an empty registry with the flag reset, after which a fresh
`initializeConnectionPool` fully restores a `POOL_SIZE`-sized pool. -/
theorem claim7_shutdown_restores (PS now : Nat) (ok closeOk : Nat → Bool) (s : PoolState)
    (hok : ∀ n, ok n = true) :
    (closeAllConnections closeOk s).idleConnectionTimer = none ∧
    (closeAllConnections closeOk s).connectionPool = [] ∧
    (closeAllConnections closeOk s).poolInitialized = false ∧
    (∀ e ∈ s.connectionPool, closeOk e.connection = true →
       e.connection ∈ (closeAllConnections closeOk s).closed) ∧
    (∀ t, s.idleConnectionTimer = some t →
       (closeAllConnections closeOk s).liveTimers = s.liveTimers.erase t) ∧
    ∃ s2, initializeConnectionPool PS now ok (closeAllConnections closeOk s) = (s2, true) ∧
      s2.connectionPool.length = PS ∧
      ∀ e ∈ s2.connectionPool, e.inUse = false ∧ e.isExtra = false := by
  obtain ⟨ht, hp, hf, hc, hl⟩ := closeAllConnections_spec closeOk s
  refine ⟨ht, hp, hf, ?_, ?_, ?_⟩
  · intro e he hok2
    rw [hc]
    exact List.mem_append_right _
      (List.mem_map.mpr ⟨e, List.mem_filter.mpr ⟨he, hok2⟩, rfl⟩)
  · intro t htimer
    rw [hl, htimer]
  · have h2 := initializeConnectionPool_of_allOk PS now ok (closeAllConnections closeOk s) hf hok
    obtain ⟨news2, hpool2, hlen2, _, _, _, _, hmem2⟩ :=
      initializeConnectionPool_success PS now ok (closeAllConnections closeOk s) _ hf h2
    refine ⟨_, h2, ?_, ?_⟩
    · rw [hpool2, hp]
      simpa using hlen2
    · intro e he
      rw [hpool2, hp] at he
      simp only [List.nil_append] at he
      obtain ⟨h1, h2', _⟩ := hmem2 e he
      exact ⟨h1, h2'⟩

/-- Witness for C7: shutting `s0ex` down and re-initializing with
`POOL_SIZE = 2` yields a working 2-sized pool. -/
theorem claim7_shutdown_restores_witness :
    (closeAllConnections okAll s0ex).idleConnectionTimer = none ∧
    (closeAllConnections okAll s0ex).connectionPool = [] ∧
    (closeAllConnections okAll s0ex).poolInitialized = false ∧
    (∀ e ∈ s0ex.connectionPool, okAll e.connection = true →
       e.connection ∈ (closeAllConnections okAll s0ex).closed) ∧
    (∀ t, s0ex.idleConnectionTimer = some t →
       (closeAllConnections okAll s0ex).liveTimers = s0ex.liveTimers.erase t) ∧
    ∃ s2, initializeConnectionPool 2 3 okAll (closeAllConnections okAll s0ex) = (s2, true) ∧
      s2.connectionPool.length = 2 ∧
      ∀ e ∈ s2.connectionPool, e.inUse = false ∧ e.isExtra = false :=
  claim7_shutdown_restores 2 3 okAll okAll s0ex (fun _ => rfl)

/-! ### The scoped-execution façade -/

theorem withConnection_eq {α : Type} (PS now1 now2 : Nat) (ok : Nat → Bool)
    (operation : Nat → World → World × Except JsError α) (w : World)
    (p1 : PoolState) (h : Nat)
    (hacq : getConnection PS now1 ok w.pool = (p1, Except.ok h)) :
    withConnection PS now1 now2 ok operation w =
      ({ (operation h { w with pool := p1 }).1 with
          pool := releaseConnection PS now2 h (operation h { w with pool := p1 }).1.pool },
       (operation h { w with pool := p1 }).2) := by
  unfold withConnection
  rw [hacq]

theorem releaseConnection_makes_idle (PS now h : Nat) (s : PoolState)
    (hnd : (s.connectionPool.map (fun c => c.connection)).Nodup) :
    ∀ e ∈ (releaseConnection PS now h s).connectionPool,
      e.connection = h → e.inUse = false := by
  cases hr : splitAtHandle h s.connectionPool with
  | none =>
    rw [releaseConnection_notFound PS now h s hr]
    intro e he heq
    have hno :=
      (splitFirst_eq_none (fun c => decide (c.connection = h)) s.connectionPool).mp hr e he
    simp only [decide_eq_false_iff_not] at hno
    exact absurd heq hno
  | some r =>
    obtain ⟨hdec, hc, _⟩ :=
      splitFirst_eq_some (fun c => decide (c.connection = h)) s.connectionPool r.1 r.2.2 r.2.1 hr
    have hch : r.2.1.connection = h := of_decide_eq_true hc
    have hnd' : ((r.1 ++ r.2.1 :: r.2.2).map (fun c => c.connection)).Nodup := by
      rw [← hdec]; exact hnd
    have hside : ∀ e, (e ∈ r.1 ∨ e ∈ r.2.2) → e.connection ≠ h := by
      intro e hmem heq
      rw [List.map_append] at hnd'
      obtain ⟨_, hnd2, hdisj⟩ := List.nodup_append.mp hnd'
      rcases hmem with hm | hm
      · refine hdisj (List.mem_map.mpr ⟨e, hm, rfl⟩) ?_
        rw [heq, ← hch]
        exact List.mem_map.mpr ⟨r.2.1, List.mem_cons_self _ _, rfl⟩
      · simp only [List.map_cons, List.nodup_cons] at hnd2
        exact hnd2.1 (List.mem_map.mpr ⟨e, hm, heq.trans hch.symm⟩)
    rw [releaseConnection_found PS now h s r.1 r.2.2 r.2.1 hr]
    by_cases hcond : (({ r.2.1 with inUse := false, lastUsed := now } : ConnEntry).isExtra &&
        decide (PS < idleCount (r.1 ++ { r.2.1 with inUse := false, lastUsed := now } :: r.2.2)))
        = true
    · rw [if_pos hcond]
      intro e he heq
      exact absurd heq (hside e (List.mem_append.mp he))
    · rw [if_neg hcond]
      intro e he heq
      rcases List.mem_append.mp he with hm | hm
      · exact absurd heq (hside e (Or.inl hm))
      · rcases List.mem_cons.mp hm with hm | hm
        · subst hm; rfl
        · exact absurd heq (hside e (Or.inr hm))

/-- C2: once `withConnection` has borrowed a connection, the final state
is exactly one `releaseConnection` applied after the work function's own
effects — on the normal path and the throwing path alike — and the work
function's result or error value reaches the caller unchanged; in
particular, when the work function leaves the registry alone, every
entry for the borrowed handle is idle again afterwards. -/
theorem claim2_withConnection_release {α : Type} (PS now1 now2 : Nat) (ok : Nat → Bool)
    (operation : Nat → World → World × Except JsError α) (w : World)
    (p1 : PoolState) (h : Nat)
    (hacq : getConnection PS now1 ok w.pool = (p1, Except.ok h)) :
    withConnection PS now1 now2 ok operation w =
      ({ (operation h { w with pool := p1 }).1 with
          pool := releaseConnection PS now2 h (operation h { w with pool := p1 }).1.pool },
       (operation h { w with pool := p1 }).2) ∧
    (WF w.pool →
     (operation h { w with pool := p1 }).1.pool = p1 →
     ∀ e ∈ (withConnection PS now1 now2 ok operation w).1.pool.connectionPool,
       e.connection = h → e.inUse = false) := by
  have heq := withConnection_eq PS now1 now2 ok operation w p1 h hacq
  refine ⟨heq, ?_⟩
  intro hwf hframe e he heq2
  rw [heq] at he
  rw [hframe] at he
  have hwf1 : WF p1 := by
    have hh := WF_getConnection PS now1 ok w.pool hwf
    rw [hacq] at hh
    exact hh
  exact releaseConnection_makes_idle PS now2 h p1 hwf1.1 e he heq2

/-- A work function that touches nothing and throws. -/
def opThrow : Nat → World → World × Except JsError Nat :=
  fun _ w0 => (w0, Except.error (JsError.plain "boom"))

/-- The world holding the pool `s0ex` and an empty exec trace. -/
def wEx : World := { pool := s0ex, log := [] }

/-- `s0ex` right after its single base connection is borrowed at
time 4. -/
def p1ex : PoolState :=
  { connectionPool := [{ connection := 0, inUse := true, lastUsed := 4, isExtra := false }],
    poolInitialized := true, nextConn := 1,
    idleConnectionTimer := some 0, liveTimers := [0], nextTimer := 1, closed := [] }

/-- Witness for C2 with a throwing work function. -/
theorem claim2_withConnection_release_witness :
    withConnection 5 4 6 okAll opThrow wEx =
      ({ (opThrow 0 { wEx with pool := p1ex }).1 with
          pool := releaseConnection 5 6 0 (opThrow 0 { wEx with pool := p1ex }).1.pool },
       (opThrow 0 { wEx with pool := p1ex }).2) ∧
    (WF wEx.pool →
     (opThrow 0 { wEx with pool := p1ex }).1.pool = p1ex →
     ∀ e ∈ (withConnection 5 4 6 okAll opThrow wEx).1.pool.connectionPool,
       e.connection = 0 → e.inUse = false) :=
  claim2_withConnection_release 5 4 6 okAll opThrow wEx p1ex 0 (by rfl)

/-- C9: `transaction` runs through `withConnection` and, on the borrowed
connection, execs `BEGIN TRANSACTION` before the batch; if the batch
succeeds it execs `COMMIT` and returns the batch's result; if the batch
fails it execs `ROLLBACK` and re-raises the failure wrapped as the
transaction error `DatabaseError("Transaction failed: " + message)`.
In both cases the borrowed connection is released. -/
theorem claim9_transaction_commit_rollback {α : Type} (PS now1 now2 : Nat) (ok : Nat → Bool)
    (operations : Nat → World → World × Except JsError α) (w : World)
    (p1 : PoolState) (h : Nat)
    (hacq : getConnection PS now1 ok w.pool = (p1, Except.ok h)) :
    (∀ w2 v, operations h { pool := p1, log := w.log ++ [(h, "BEGIN TRANSACTION")] }
        = (w2, Except.ok v) →
       transaction PS now1 now2 ok operations w =
         ({ pool := releaseConnection PS now2 h w2.pool,
            log := w2.log ++ [(h, "COMMIT")] }, Except.ok v)) ∧
    (∀ w2 e, operations h { pool := p1, log := w.log ++ [(h, "BEGIN TRANSACTION")] }
        = (w2, Except.error e) →
       transaction PS now1 now2 ok operations w =
         ({ pool := releaseConnection PS now2 h w2.pool,
            log := w2.log ++ [(h, "ROLLBACK")] },
          Except.error (JsError.databaseError ("Transaction failed: " ++ JsError.message e)))) := by
  have hw := withConnection_eq PS now1 now2 ok (txCallback operations) w p1 h hacq
  constructor
  · intro w2 v hops
    have hops' : operations h (dbExec h "BEGIN TRANSACTION" { w with pool := p1 })
        = (w2, Except.ok v) := hops
    have hcb : txCallback operations h { w with pool := p1 }
        = (dbExec h "COMMIT" w2, Except.ok v) := by
      unfold txCallback
      rw [hops']
    unfold transaction
    rw [hw, hcb]
    rfl
  · intro w2 e hops
    have hops' : operations h (dbExec h "BEGIN TRANSACTION" { w with pool := p1 })
        = (w2, Except.error e) := hops
    have hcb : txCallback operations h { w with pool := p1 }
        = (dbExec h "ROLLBACK" w2,
           Except.error (JsError.databaseError ("Transaction failed: " ++ JsError.message e))) := by
      unfold txCallback
      rw [hops']
    unfold transaction
    rw [hw, hcb]
    rfl

/-- A batch that runs one statement and succeeds with value 7. -/
def opsOk : Nat → World → World × Except JsError Nat :=
  fun db w0 => ({ w0 with log := w0.log ++ [(db, "INSERT")] }, Except.ok 7)

/-- The world after `BEGIN TRANSACTION` and the batch of `opsOk`. -/
def w2ex : World :=
  { pool := p1ex, log := [(0, "BEGIN TRANSACTION"), (0, "INSERT")] }

/-- Witness for C9 on the committing path. -/
theorem claim9_transaction_commit_rollback_witness :
    transaction 5 4 6 okAll opsOk wEx =
      ({ pool := releaseConnection 5 6 0 w2ex.pool,
         log := w2ex.log ++ [(0, "COMMIT")] }, Except.ok 7) :=
  (claim9_transaction_commit_rollback 5 4 6 okAll opsOk wEx p1ex 0 (by rfl)).1
    w2ex 7 (by rfl)

end HabitPool
